import Mathlib

/-!
Shallow embedding of the autogram save and reconcile pipeline
(src/autogram/message_processor.py, file_manager.py, summarizer.py,
telegram_client_handler.py, message_updater.py) together with theorems
checking the specification claims about it.

External effects (HTTP fetch, HTML parsing, the generation service, the
filesystem write outcome, the messaging client) are modelled as oracles in an
environment record; the filesystem managed by FileManager is explicit state
(an association list from filename to content).  Functions additionally
return a trace of the external calls they performed (fetch / parse /
summarize events, sleep durations), which the source performs as side
effects.
-/

namespace Autogram

/-- A mapping entry value: the dict with keys url and filename
returned by `MessageProcessor.process_url`. -/
structure SummaryInfo where
  url : String
  filename : String
deriving DecidableEq, Repr

/-- The files managed by `FileManager` under its base directory:
an association list from filename to file content. -/
abbrev Files := List (String × String)

/-- Oracles for the external collaborators used by the save pass:
`fetch` is `ArticleFetcher.fetch` (None on failure), `extract` is
`ArticleParser.parse` (None on failure), `summarize` is
`Summarizer.summarize` (None once its retry budget is exhausted), and
`writeOk` tells whether the filesystem write in `FileManager.save_summary`
succeeds for a given filename (the source catches any write exception). -/
structure Env where
  fetch : String → Option String
  extract : String → Option String
  summarize : String → Option String
  writeOk : String → Bool

/-- Trace of external calls made while processing a URL. -/
inductive Event where
  | fetch (url : String)
  | extract (url : String)
  | summarize (url : String)
deriving DecidableEq, Repr

/-- `c` matches the regex class `\w` of `re.sub(r'\W+', '_', url)`
(ASCII fragment: letters, digits and the underscore). -/
def isWordChar (c : Char) : Bool :=
  c.isAlphanum || c == '_'

/-- State machine for `re.sub(r'\W+', '_', url)`: each maximal nonempty run
of non-word characters is replaced by a single underscore.  The flag records
whether the previous character belonged to such a run. -/
def sanitizeAux : Bool → List Char → List Char
  | _, [] => []
  | inRun, c :: rest =>
    if isWordChar c then c :: sanitizeAux false rest
    else if inRun then sanitizeAux true rest
    else '_' :: sanitizeAux true rest

/-- `re.sub(r'\W+', '_', url)` from `MessageProcessor.generate_filename`. -/
def sanitize_url (url : String) : String :=
  ⟨sanitizeAux false url.data⟩

/-- `MessageProcessor.generate_filename`: the f-string
`f"{message_id}_{sanitized_url}.md"`. -/
def generate_filename (message_id : Nat) (url : String) : String :=
  toString message_id ++ "_" ++ sanitize_url url ++ ".md"

/-- `FileManager.check_file_exists`. -/
def check_file_exists (files : Files) (filename : String) : Bool :=
  files.any fun f => f.1 == filename

/-- Writing a file with `open(filepath, 'w')`: replaces the content if the
file exists, creates it otherwise. -/
def setFile (files : Files) (filename content : String) : Files :=
  match files with
  | [] => [(filename, content)]
  | (f, c) :: rest =>
    if f = filename then (filename, content) :: rest
    else (f, c) :: setFile rest filename content

/-- `FileManager.save_summary`: performs the write; any exception is caught
and logged, so on a failed write the state is unchanged and the function
still returns normally. -/
def save_summary (env : Env) (files : Files) (filename summary : String) : Files :=
  if env.writeOk filename then setFile files filename summary else files

/-- Result of `MessageProcessor.process_url`: the returned value (an entry
or None), the filesystem afterwards, and the external calls performed. -/
structure UrlResult where
  info : Option SummaryInfo
  files : Files
  events : List Event
deriving DecidableEq, Repr

/-- `MessageProcessor.process_url`. -/
def process_url (env : Env) (files : Files) (message_id : Nat) (url : String) :
    UrlResult :=
  let filename := generate_filename message_id url
  if check_file_exists files filename then
    { info := some { url := url, filename := filename }, files := files, events := [] }
  else
    match env.fetch url with
    | none => { info := none, files := files, events := [.fetch url] }
    | some html =>
      match env.extract html with
      | none => { info := none, files := files, events := [.fetch url, .extract url] }
      | some content =>
        match env.summarize content with
        | none =>
          { info := none, files := files
            events := [.fetch url, .extract url, .summarize url] }
        | some summary =>
          { info := some { url := url, filename := filename }
            files := save_summary env files filename summary
            events := [.fetch url, .extract url, .summarize url] }

/-- Result of processing the URL list of one message: the entries appended
to the mapping value for that message, in order. -/
structure UrlsResult where
  infos : List SummaryInfo
  files : Files
  events : List Event
deriving DecidableEq, Repr

/-- The inner loop of `MessageProcessor.process_messages` over the URLs of a
single message: each non-None result of `process_url` is appended. -/
def process_urls (env : Env) (files : Files) (message_id : Nat) :
    List String → UrlsResult
  | [] => { infos := [], files := files, events := [] }
  | url :: rest =>
    let r := process_url env files message_id url
    let rs := process_urls env r.files message_id rest
    { infos := (match r.info with | some i => [i] | none => []) ++ rs.infos
      files := rs.files
      events := r.events ++ rs.events }

/-- The mapping built by `process_messages`: a Python dict from message id
to the list of summary-info entries, in insertion order. -/
abbrev Mapping := List (Nat × List SummaryInfo)

/-- Python dict assignment `mapping[k] = v`: replaces in place if the key is
present (keeping its position), appends otherwise. -/
def dictSet (m : Mapping) (k : Nat) (v : List SummaryInfo) : Mapping :=
  match m with
  | [] => [(k, v)]
  | (k', v') :: rest =>
    if k' = k then (k, v) :: rest else (k', v') :: dictSet rest k v

/-- Python dict lookup `mapping.get(k)`. -/
def dictGet (m : Mapping) (k : Nat) : Option (List SummaryInfo) :=
  match m with
  | [] => none
  | (k', v) :: rest => if k' = k then some v else dictGet rest k

/-- Result of `MessageProcessor.process_messages`. -/
structure RunResult where
  mapping : Mapping
  files : Files
  events : List Event
deriving DecidableEq, Repr

/-- `MessageProcessor.process_messages`, with the mapping built so far as
accumulator: for each `(message, urls)` pair it sets `mapping[message.id]`
and appends the successful results of `process_url` for the urls in order.
A message is represented by its id, the only attribute the source reads. -/
def process_messages_go (env : Env) (acc : Mapping) (files : Files) :
    List (Nat × List String) → RunResult
  | [] => { mapping := acc, files := files, events := [] }
  | (mid, urls) :: rest =>
    let r := process_urls env files mid urls
    let rs := process_messages_go env (dictSet acc mid r.infos) r.files rest
    { mapping := rs.mapping, files := rs.files, events := r.events ++ rs.events }

/-- `MessageProcessor.process_messages` (the mapping starts empty). -/
def process_messages (env : Env) (files : Files)
    (messages_with_urls : List (Nat × List String)) : RunResult :=
  process_messages_go env [] files messages_with_urls

/-- The mapping in which every listed URL of every message has its entry:
what `process_messages` returns when every URL is processed successfully. -/
def fullMapping (msgs : List (Nat × List String)) : Mapping :=
  msgs.map fun p => (p.1, p.2.map fun u => ⟨u, generate_filename p.1 u⟩)

/-! ### Summarizer (src/autogram/summarizer.py) -/

/-- A tiktoken encoding: token ids are naturals.  `tiktoken` guarantees
nothing we rely on beyond these two maps, so they stay abstract. -/
structure Encoding where
  encode : String → List Nat
  decode : List Nat → String

/-- `Summarizer.truncate_text`: if the token count exceeds `max_tokens`,
keep the first `max_tokens` tokens and decode them; otherwise return the
text unchanged. -/
def truncate_text (enc : Encoding) (text : String) (max_tokens : Nat) : String :=
  let tokens := enc.encode text
  if tokens.length > max_tokens then enc.decode (tokens.take max_tokens)
  else text

/-- Outcome of one `openai.chat.completions.create` call:
a response content, an `OpenAIError`, or any other exception. -/
inductive CallResult where
  | ok (content : String)
  | oaiErr
  | otherErr
deriving DecidableEq, Repr

/-- The `max_total_tokens` tiers selected in `Summarizer.summarize`. -/
def max_total_tokens_for (model_name : String) : Nat :=
  if model_name = "gpt-3.5-turbo" then 4096
  else if model_name = "gpt-4" then 8192
  else 4096

/-- The retry loop `for attempt in range(retries)` of `Summarizer.summarize`
over a call oracle indexed by attempt number.  Returns the summary (the
stripped response content) or none, together with the list of sleep
durations performed (`time.sleep(2 ** attempt)` after each `OpenAIError`).
Any other exception returns None at once, with no sleep. -/
def summarize_loop (call : Nat → CallResult) : Nat → Nat → Option String × List Nat
  | _, 0 => (none, [])
  | attempt, fuel + 1 =>
    match call attempt with
    | .ok content => (some content.trim, [])
    | .oaiErr =>
      let r := summarize_loop call (attempt + 1) fuel
      (r.1, 2 ^ attempt :: r.2)
    | .otherErr => (none, [])

/-- `Summarizer.summarize`: computes the input budget from the model tier,
truncates the text, then runs the retry loop.  The call oracle receives the
attempt number and the truncated user content (the fixed system prompt is
part of the external request and is folded into the oracle). -/
def summarize (enc : Encoding) (call : Nat → String → CallResult)
    (model_name text : String) (retries : Nat) : Option String × List Nat :=
  let max_total_tokens := max_total_tokens_for model_name
  let max_response_tokens := 1024
  let buffer_tokens := 100
  let max_input_tokens := max_total_tokens - max_response_tokens - buffer_tokens
  let truncated := truncate_text enc text max_input_tokens
  summarize_loop (fun attempt => call attempt truncated) 0 retries

/-! ### Message editing (telegram_client_handler.py, message_updater.py) -/

/-- The telethon errors distinguished by the handler:
`MessageNotModifiedError` or any other exception. -/
inductive TgError where
  | notModified
  | other (msg : String)
deriving DecidableEq, Repr

/-- How one edit request ended inside `TelegramClientHandler.edit_message`. -/
inductive EditResult where
  | edited
  | noop
  | failed
deriving DecidableEq, Repr

/-- Levels of the log lines the edit path emits. -/
inductive LogLevel where
  | info
  | warning
  | error
deriving DecidableEq, Repr

/-- `TelegramClientHandler.edit_message` applied to the outcome of the raw
`client.edit_message` call: success logs at info, `MessageNotModifiedError`
is caught and logged at warning, any other exception is caught and logged at
error.  The function always returns normally. -/
def tch_edit_message (clientResult : Except TgError Unit) : EditResult × List LogLevel :=
  match clientResult with
  | .ok _ => (.edited, [.info])
  | .error .notModified => (.noop, [.warning])
  | .error (.other _) => (.failed, [.error])

/-- `MessageUpdater.edit_message`: delegates to the handler (which never
raises, so the local `except MessageNotModifiedError` is unreachable) and
then logs `"Message %s updated."` at info. -/
def mu_edit_message (clientResult : Except TgError Unit) : EditResult × List LogLevel :=
  let r := tch_edit_message clientResult
  (r.1, r.2 ++ [.info])

/-- A Telegram message as read back during reconciliation. -/
structure Message where
  id : Nat
  text : String

/-- `MessageUpdater.update_messages`: for each mapping entry, fetch the live
message (a missing message is logged and skipped, recorded here as none),
build the new content and request the edit.  The pass visits every entry
whatever the individual outcomes are. -/
def update_messages (getMsg : Nat → Option Message)
    (clientEdit : Nat → String → Except TgError Unit)
    (content_func : Message → List SummaryInfo → String)
    (mapping : Mapping) : List (Nat × Option (EditResult × List LogLevel)) :=
  mapping.map fun p =>
    match getMsg p.1 with
    | none => (p.1, none)
    | some m => (p.1, some (mu_edit_message (clientEdit p.1 (content_func m p.2))))

/-! ### The literal wording of the spec for the ArtifactKey derivation,
used to compare claim C5 with the source.  The spec says the key is derived
"by replacing every non-word character with an underscore", which read
literally is a character-by-character replacement. -/

/-- ArtifactKey derivation as worded by the spec: every single non-word
character becomes one underscore. -/
def sanitize_url_specwords (url : String) : String :=
  ⟨url.data.map fun c => if isWordChar c then c else '_'⟩

/-- `generate_filename` with the ArtifactKey derivation read literally from
the spec wording. -/
def generate_filename_specwords (message_id : Nat) (url : String) : String :=
  toString message_id ++ "_" ++ sanitize_url_specwords url ++ ".md"

/-! ### Concrete environments used to instantiate the theorems -/

/-- Every stage succeeds and every filesystem write succeeds. -/
def envAllOk : Env :=
  { fetch := fun _ => some ("html"), extract := fun _ => some ("content"),
    summarize := fun _ => some ("summary"), writeOk := fun _ => true }

/-- Every stage succeeds but every filesystem write fails. -/
def envNoWrite : Env :=
  { fetch := fun _ => some ("html"), extract := fun _ => some ("content"),
    summarize := fun _ => some ("summary"), writeOk := fun _ => false }

/-- Every fetch fails. -/
def envNoFetch : Env :=
  { fetch := fun _ => none, extract := fun _ => none,
    summarize := fun _ => none, writeOk := fun _ => true }

/-- Fetching exactly the URL b fails; everything else succeeds. -/
def envBFails : Env :=
  { fetch := fun u => if u = "http://b" then none else some ("html"),
    extract := fun _ => some ("content"),
    summarize := fun _ => some ("summary"), writeOk := fun _ => true }

/-- A concrete executable encoding: one token per character. -/
def encW : Encoding :=
  { encode := fun s => s.data.map Char.toNat,
    decode := fun l => ⟨l.map Char.ofNat⟩ }

/-- A generation service that raises an OpenAIError on every attempt. -/
def callAlwaysOai : Nat → String → CallResult := fun _ _ => .oaiErr

/-- A generation service that raises an OpenAIError on attempt 0 and a
different exception on every later attempt. -/
def callOaiThenOther : Nat → String → CallResult :=
  fun i _ => if i = 0 then .oaiErr else .otherErr

/-- A message source in which every id resolves to a message. -/
def getMsgW : Nat → Option Message := fun i => some { id := i, text := ("old") }

/-- A messaging client whose edit always reports the not-modified error. -/
def clientEditNotMod : Nat → String → Except TgError Unit :=
  fun _ _ => .error .notModified

/-- A content builder returning fixed new text. -/
def contentW : Message → List SummaryInfo → String := fun _ _ => ("new")

/-! ### Helper lemmas about the filesystem state -/

theorem check_file_exists_iff (files : Files) (f : String) :
    check_file_exists files f = true ↔ f ∈ files.map Prod.fst := by
  simp only [check_file_exists, List.any_eq_true, beq_iff_eq, List.mem_map]

theorem setFile_map_fst_subset (files : Files) (fn c f : String)
    (h : f ∈ files.map Prod.fst) : f ∈ (setFile files fn c).map Prod.fst := by
  induction files with
  | nil => simp at h
  | cons hd tl ih =>
    obtain ⟨g, cc⟩ := hd
    simp only [List.map_cons, List.mem_cons] at h
    by_cases hg : g = fn
    · rcases h with h | h
      · subst hg; subst h; simp [setFile]
      · subst hg; simp [setFile, h]
    · rcases h with h | h
      · simp [setFile, hg, h]
      · simp [setFile, hg]
        exact Or.inr (by simpa using ih h)

theorem setFile_mem_fst (files : Files) (fn c : String) :
    fn ∈ (setFile files fn c).map Prod.fst := by
  induction files with
  | nil => simp [setFile]
  | cons hd tl ih =>
    obtain ⟨g, cc⟩ := hd
    by_cases hg : g = fn
    · simp [setFile, hg]
    · simp [setFile, hg]
      exact Or.inr (by simpa using ih)

theorem check_setFile_self (files : Files) (fn c : String) :
    check_file_exists (setFile files fn c) fn = true :=
  (check_file_exists_iff _ _).mpr (setFile_mem_fst files fn c)

theorem check_setFile_mono (files : Files) (fn c f : String)
    (h : check_file_exists files f = true) :
    check_file_exists (setFile files fn c) f = true :=
  (check_file_exists_iff _ _).mpr
    (setFile_map_fst_subset files fn c f ((check_file_exists_iff _ _).mp h))

theorem check_save_mono (env : Env) (files : Files) (fn c f : String)
    (h : check_file_exists files f = true) :
    check_file_exists (save_summary env files fn c) f = true := by
  unfold save_summary
  split
  · exact check_setFile_mono files fn c f h
  · exact h

/-! ### Helper lemmas about `process_url` -/

theorem process_url_skip (env : Env) (files : Files) (mid : Nat) (url : String)
    (h : check_file_exists files (generate_filename mid url) = true) :
    process_url env files mid url =
      { info := some ⟨url, generate_filename mid url⟩, files := files, events := [] } := by
  simp [process_url, h]

theorem process_url_none_files (env : Env) (files : Files) (mid : Nat) (url : String)
    (h : (process_url env files mid url).info = none) :
    (process_url env files mid url).files = files := by
  by_cases hc : check_file_exists files (generate_filename mid url) = true
  · rw [process_url_skip env files mid url hc] at h; simp at h
  · simp only [process_url, if_neg hc] at h ⊢
    cases hf : env.fetch url with
    | none => simp [hf]
    | some html =>
      simp only [hf] at h ⊢
      cases hp : env.extract html with
      | none => simp [hp]
      | some content =>
        simp only [hp] at h ⊢
        cases hs : env.summarize content with
        | none => simp [hs]
        | some s => simp [hs] at h

theorem process_url_some_shape (env : Env) (files : Files) (mid : Nat) (url : String)
    (i : SummaryInfo) (h : (process_url env files mid url).info = some i) :
    i = ⟨url, generate_filename mid url⟩ := by
  by_cases hc : check_file_exists files (generate_filename mid url) = true
  · rw [process_url_skip env files mid url hc] at h
    simp at h; exact h.symm
  · simp only [process_url, if_neg hc] at h
    cases hf : env.fetch url with
    | none => simp [hf] at h
    | some html =>
      simp only [hf] at h
      cases hp : env.extract html with
      | none => simp [hp] at h
      | some content =>
        simp only [hp] at h
        cases hs : env.summarize content with
        | none => simp [hs] at h
        | some s => simp [hs] at h; exact h.symm

theorem process_url_check_mono (env : Env) (files : Files) (mid : Nat) (url f : String)
    (h : check_file_exists files f = true) :
    check_file_exists (process_url env files mid url).files f = true := by
  by_cases hc : check_file_exists files (generate_filename mid url) = true
  · rw [process_url_skip env files mid url hc]; exact h
  · simp only [process_url, if_neg hc]
    cases hf : env.fetch url with
    | none => simpa using h
    | some html =>
      simp only [hf]
      cases hp : env.extract html with
      | none => simpa using h
      | some content =>
        simp only [hp]
        cases hs : env.summarize content with
        | none => simpa using h
        | some s =>
          simp only [hs]
          exact check_save_mono env files _ _ f h

theorem process_url_some_file (env : Env) (files : Files) (mid : Nat) (url : String)
    (i : SummaryInfo) (hw : env.writeOk (generate_filename mid url) = true)
    (h : (process_url env files mid url).info = some i) :
    check_file_exists (process_url env files mid url).files i.filename = true := by
  have hi := process_url_some_shape env files mid url i h
  subst hi
  by_cases hc : check_file_exists files (generate_filename mid url) = true
  · rw [process_url_skip env files mid url hc]; exact hc
  · simp only [process_url, if_neg hc] at h ⊢
    cases hf : env.fetch url with
    | none => simp [hf] at h
    | some html =>
      simp only [hf] at h ⊢
      cases hp : env.extract html with
      | none => simp [hp] at h
      | some content =>
        simp only [hp] at h ⊢
        cases hs : env.summarize content with
        | none => simp [hs] at h
        | some s =>
          simp only [hs]
          have hsave : save_summary env files (generate_filename mid url) s
              = setFile files (generate_filename mid url) s := by
            simp [save_summary, hw]
          show check_file_exists (save_summary env files (generate_filename mid url) s)
              (generate_filename mid url) = true
          rw [hsave]
          exact check_setFile_self files _ _

/-! ### Helper lemmas about `process_urls` -/

theorem process_url_fetch_fail (env : Env) (files : Files) (mid : Nat) (url : String)
    (hc : ¬ check_file_exists files (generate_filename mid url) = true)
    (hf : env.fetch url = none) :
    process_url env files mid url = { info := none, files := files, events := [.fetch url] } := by
  simp [process_url, if_neg hc, hf]

theorem process_urls_check_mono (env : Env) (mid : Nat) (urls : List String) :
    ∀ (files : Files) (f : String), check_file_exists files f = true →
      check_file_exists (process_urls env files mid urls).files f = true := by
  induction urls with
  | nil => intro files f h; simpa [process_urls] using h
  | cons url rest ih =>
    intro files f h
    simp only [process_urls]
    exact ih _ f (process_url_check_mono env files mid url f h)

theorem process_urls_entries_persisted (env : Env) (mid : Nat) (urls : List String)
    (hw : ∀ f, env.writeOk f = true) :
    ∀ (files : Files) (i : SummaryInfo), i ∈ (process_urls env files mid urls).infos →
      check_file_exists (process_urls env files mid urls).files i.filename = true := by
  induction urls with
  | nil => intro files i h; simp [process_urls] at h
  | cons url rest ih =>
    intro files i h
    simp only [process_urls, List.mem_append] at h
    rcases h with h | h
    · match hr : (process_url env files mid url).info with
      | none => simp [hr] at h
      | some j =>
        simp [hr] at h
        subst h
        have hfile := process_url_some_file env files mid url i (hw _) hr
        simpa [process_urls] using
          process_urls_check_mono env mid rest _ i.filename hfile
    · simpa [process_urls] using ih (process_url env files mid url).files i h

theorem process_urls_all_exists (env : Env) (mid : Nat) (urls : List String)
    (files : Files)
    (h : ∀ u ∈ urls, check_file_exists files (generate_filename mid u) = true) :
    process_urls env files mid urls =
      { infos := urls.map fun u => ⟨u, generate_filename mid u⟩
        files := files, events := [] } := by
  induction urls with
  | nil => simp [process_urls]
  | cons url rest ih =>
    have hu := h url (by simp)
    simp only [process_urls, process_url_skip env files mid url hu]
    rw [ih fun u hu2 => h u (by simp [hu2])]
    simp

theorem process_urls_all_fail (env : Env) (mid : Nat) (urls : List String)
    (files : Files)
    (h : ∀ u ∈ urls, env.fetch u = none ∧
      check_file_exists files (generate_filename mid u) = false) :
    process_urls env files mid urls =
      { infos := [], files := files, events := urls.map .fetch } := by
  induction urls with
  | nil => simp [process_urls]
  | cons url rest ih =>
    obtain ⟨hf, hc⟩ := h url (by simp)
    simp only [process_urls,
      process_url_fetch_fail env files mid url (by simp [hc]) hf]
    rw [ih fun u hu2 => h u (by simp [hu2])]
    simp

/-! ### Helper lemmas about the dict operations -/

theorem dictGet_dictSet_self (m : Mapping) (k : Nat) (v : List SummaryInfo) :
    dictGet (dictSet m k v) k = some v := by
  induction m with
  | nil => simp [dictSet, dictGet]
  | cons hd tl ih =>
    obtain ⟨k', v'⟩ := hd
    by_cases h : k' = k
    · simp [dictSet, dictGet, h]
    · simp [dictSet, dictGet, h, ih]

theorem dictGet_dictSet_ne (m : Mapping) (k j : Nat) (v : List SummaryInfo)
    (h : j ≠ k) : dictGet (dictSet m k v) j = dictGet m j := by
  induction m with
  | nil => simp [dictSet, dictGet, Ne.symm h]
  | cons hd tl ih =>
    obtain ⟨k', v'⟩ := hd
    by_cases hk : k' = k
    · subst hk
      simp [dictSet, dictGet, Ne.symm h]
    · by_cases hj : k' = j
      · subst hj
        simp [dictSet, dictGet, hk]
      · simp [dictSet, dictGet, hk, hj, ih]

theorem dictSet_fresh (m : Mapping) (k : Nat) (v : List SummaryInfo)
    (h : k ∉ m.map Prod.fst) : dictSet m k v = m ++ [(k, v)] := by
  induction m with
  | nil => simp [dictSet]
  | cons hd tl ih =>
    obtain ⟨k', v'⟩ := hd
    simp only [List.map_cons, List.mem_cons] at h
    push_neg at h
    simp [dictSet, Ne.symm h.1, ih h.2]

theorem mem_dictSet (m : Mapping) (k : Nat) (v : List SummaryInfo)
    (p : Nat × List SummaryInfo) (h : p ∈ dictSet m k v) :
    p ∈ m ∨ p = (k, v) := by
  induction m with
  | nil => simp [dictSet] at h; right; exact h
  | cons hd tl ih =>
    obtain ⟨k', v'⟩ := hd
    by_cases hk : k' = k
    · simp only [dictSet, if_pos hk, List.mem_cons] at h
      rcases h with h | h
      · right; exact h
      · left; simp [h]
    · simp only [dictSet, if_neg hk, List.mem_cons] at h
      rcases h with h | h
      · left; simp [h]
      · rcases ih h with h2 | h2
        · left; simp [h2]
        · right; exact h2

/-! ### Helper lemmas about `process_messages_go` -/

theorem process_messages_go_check_mono (env : Env) (msgs : List (Nat × List String)) :
    ∀ (acc : Mapping) (files : Files) (f : String), check_file_exists files f = true →
      check_file_exists (process_messages_go env acc files msgs).files f = true := by
  induction msgs with
  | nil => intro acc files f h; simpa [process_messages_go] using h
  | cons hd rest ih =>
    obtain ⟨mid, urls⟩ := hd
    intro acc files f h
    simp only [process_messages_go]
    exact ih _ _ f (process_urls_check_mono env mid urls files f h)

theorem process_messages_go_keys (env : Env) (msgs : List (Nat × List String)) :
    ∀ (acc : Mapping) (files : Files),
      (∀ k ∈ msgs.map Prod.fst, k ∉ acc.map Prod.fst) →
      (msgs.map Prod.fst).Nodup →
      (process_messages_go env acc files msgs).mapping.map Prod.fst
        = acc.map Prod.fst ++ msgs.map Prod.fst := by
  induction msgs with
  | nil => intro acc files _ _; simp [process_messages_go]
  | cons hd rest ih =>
    obtain ⟨mid, urls⟩ := hd
    intro acc files hfresh hnd
    simp only [List.map_cons, List.nodup_cons] at hnd
    have hmid : mid ∉ acc.map Prod.fst := hfresh mid (by simp)
    simp only [process_messages_go]
    rw [ih (dictSet acc mid (process_urls env files mid urls).infos) _ ?fresh hnd.2]
    · rw [dictSet_fresh acc mid _ hmid]
      simp
    case fresh =>
      intro k hk
      rw [dictSet_fresh acc mid _ hmid]
      simp only [List.map_append, List.mem_append, List.map_cons, List.map_nil,
        List.mem_singleton]
      push_neg
      refine ⟨hfresh k (by simp [hk]), ?_⟩
      intro hkm
      exact hnd.1 (hkm ▸ hk)

theorem process_messages_go_dictGet (env : Env) (msgs : List (Nat × List String)) :
    ∀ (acc : Mapping) (files : Files) (k : Nat), k ∉ msgs.map Prod.fst →
      dictGet (process_messages_go env acc files msgs).mapping k = dictGet acc k := by
  induction msgs with
  | nil => intro acc files k _; simp [process_messages_go]
  | cons hd rest ih =>
    obtain ⟨mid, urls⟩ := hd
    intro acc files k hk
    simp only [List.map_cons, List.mem_cons] at hk
    push_neg at hk
    simp only [process_messages_go]
    rw [ih _ _ k hk.2, dictGet_dictSet_ne _ _ _ _ hk.1]

theorem process_messages_go_entries (env : Env) (msgs : List (Nat × List String))
    (hw : ∀ f, env.writeOk f = true) :
    ∀ (acc : Mapping) (files : Files),
      (∀ p ∈ acc, ∀ i ∈ p.2, check_file_exists files i.filename = true) →
      ∀ p ∈ (process_messages_go env acc files msgs).mapping, ∀ i ∈ p.2,
        check_file_exists (process_messages_go env acc files msgs).files i.filename
          = true := by
  induction msgs with
  | nil =>
    intro acc files hacc p hp i hi
    simp only [process_messages_go] at hp ⊢
    exact hacc p hp i hi
  | cons hd rest ih =>
    obtain ⟨mid, urls⟩ := hd
    intro acc files hacc p hp i hi
    simp only [process_messages_go] at hp ⊢
    refine ih _ _ ?inv p hp i hi
    case inv =>
      intro q hq j hj
      rcases mem_dictSet _ _ _ _ hq with hq2 | hq2
      · exact process_urls_check_mono env mid urls files j.filename (hacc q hq2 j hj)
      · refine process_urls_entries_persisted env mid urls hw files j ?_
        rw [hq2] at hj
        exact hj

theorem process_messages_go_all_exists (env : Env) (msgs : List (Nat × List String)) :
    ∀ (acc : Mapping) (files : Files),
      (∀ p ∈ msgs, ∀ u ∈ p.2, check_file_exists files (generate_filename p.1 u) = true) →
      (∀ k ∈ msgs.map Prod.fst, k ∉ acc.map Prod.fst) →
      (msgs.map Prod.fst).Nodup →
      process_messages_go env acc files msgs =
        { mapping := acc ++ fullMapping msgs, files := files, events := [] } := by
  induction msgs with
  | nil => intro acc files _ _ _; simp [process_messages_go, fullMapping]
  | cons hd rest ih =>
    obtain ⟨mid, urls⟩ := hd
    intro acc files hex hfresh hnd
    simp only [List.map_cons, List.nodup_cons] at hnd
    have hmid : mid ∉ acc.map Prod.fst := hfresh mid (by simp)
    simp only [process_messages_go]
    rw [process_urls_all_exists env mid urls files (hex (mid, urls) (by simp))]
    dsimp only
    rw [dictSet_fresh acc mid _ hmid]
    rw [ih (acc ++ [(mid, urls.map fun u => SummaryInfo.mk u (generate_filename mid u))])
      files (fun p hp u hu => hex p (by simp [hp]) u hu) ?fresh2 hnd.2]
    · simp [fullMapping]
    case fresh2 =>
      intro k hk
      simp only [List.map_append, List.mem_append, List.map_cons, List.map_nil,
        List.mem_singleton]
      push_neg
      refine ⟨hfresh k (by simp [hk]), ?_⟩
      intro hkm
      exact hnd.1 (hkm ▸ hk)

theorem process_messages_go_append (env : Env) (xs ys : List (Nat × List String)) :
    ∀ (acc : Mapping) (files : Files),
      process_messages_go env acc files (xs ++ ys) =
        { mapping := (process_messages_go env
            (process_messages_go env acc files xs).mapping
            (process_messages_go env acc files xs).files ys).mapping
          files := (process_messages_go env
            (process_messages_go env acc files xs).mapping
            (process_messages_go env acc files xs).files ys).files
          events := (process_messages_go env acc files xs).events ++
            (process_messages_go env
              (process_messages_go env acc files xs).mapping
              (process_messages_go env acc files xs).files ys).events } := by
  induction xs with
  | nil => intro acc files; simp [process_messages_go]
  | cons hd rest ih =>
    obtain ⟨mid, urls⟩ := hd
    intro acc files
    simp only [List.cons_append, process_messages_go, List.append_eq]
    rw [ih]
    simp [process_messages_go]

/-! ### Decimal representation: `Nat.repr` is injective -/

/-- Decimal digit characters of a natural number, most significant first. -/
def natDigits (n : Nat) : List Char :=
  if n < 10 then [Nat.digitChar n]
  else natDigits (n / 10) ++ [Nat.digitChar (n % 10)]
termination_by n
decreasing_by exact Nat.div_lt_self (by omega) (by omega)

/-- Reading a decimal digit list back as a number. -/
def decodeDigits (l : List Char) : Nat :=
  l.foldl (fun acc c => acc * 10 + (c.toNat - 48)) 0

theorem digitChar_toNat (d : Nat) (h : d < 10) : (Nat.digitChar d).toNat - 48 = d := by
  interval_cases d <;> decide

theorem decodeDigits_natDigits : ∀ n : Nat, decodeDigits (natDigits n) = n := by
  intro n
  induction n using Nat.strong_induction_on with
  | _ n ih =>
    by_cases h : n < 10
    · rw [natDigits, if_pos h]
      simp [decodeDigits, digitChar_toNat n h]
    · rw [natDigits, if_neg h]
      have hdiv : n / 10 < n := Nat.div_lt_self (by omega) (by omega)
      have hrec := ih (n / 10) hdiv
      simp only [decodeDigits, List.foldl_append, List.foldl_cons, List.foldl_nil]
      simp only [decodeDigits] at hrec
      rw [hrec, digitChar_toNat (n % 10) (Nat.mod_lt n (by omega))]
      omega

theorem natDigits_injective (m n : Nat) (h : natDigits m = natDigits n) : m = n := by
  have := congrArg decodeDigits h
  rwa [decodeDigits_natDigits, decodeDigits_natDigits] at this

theorem toDigitsCore_eq_natDigits :
    ∀ (fuel n : Nat) (acc : List Char), n < fuel →
      Nat.toDigitsCore 10 fuel n acc = natDigits n ++ acc := by
  intro fuel
  induction fuel with
  | zero => intro n acc h; omega
  | succ f ih =>
    intro n acc h
    simp only [Nat.toDigitsCore]
    by_cases h10 : n / 10 = 0
    · rw [if_pos h10]
      have hn : n < 10 := by omega
      rw [natDigits, if_pos hn, Nat.mod_eq_of_lt hn]
      simp
    · rw [if_neg h10]
      have h0 : 0 < n := by omega
      have hlt : n / 10 < f := by
        have := Nat.div_lt_self h0 (by omega : 1 < 10)
        omega
      rw [ih (n / 10) (Nat.digitChar (n % 10) :: acc) hlt]
      conv_rhs => rw [natDigits, if_neg (by omega : ¬ n < 10)]
      simp

theorem repr_eq_natDigits (n : Nat) : Nat.repr n = ⟨natDigits n⟩ := by
  show (Nat.toDigits 10 n).asString = _
  rw [Nat.toDigits, toDigitsCore_eq_natDigits (n + 1) n [] (Nat.lt_succ_self n)]
  simp [List.asString]

theorem natRepr_injective (m n : Nat) (h : Nat.repr m = Nat.repr n) : m = n := by
  rw [repr_eq_natDigits, repr_eq_natDigits] at h
  exact natDigits_injective m n (congrArg String.data h)

/-! ### Properties of the filename sanitizer -/

theorem sanitizeAux_word : ∀ (l : List Char) (b : Bool) (c : Char),
    c ∈ sanitizeAux b l → isWordChar c = true := by
  intro l
  induction l with
  | nil => intro b c hc; simp [sanitizeAux] at hc
  | cons hd tl ih =>
    intro b c hc
    by_cases hw : isWordChar hd
    · rw [sanitizeAux, if_pos hw] at hc
      rcases List.mem_cons.mp hc with rfl | h
      · exact hw
      · exact ih false c h
    · rw [sanitizeAux, if_neg hw] at hc
      cases b with
      | true => simpa using ih true c (by simpa using hc)
      | false =>
        rcases List.mem_cons.mp (by simpa using hc) with rfl | h
        · decide
        · exact ih true c h

theorem generate_filename_inj_id (id1 id2 : Nat) (url : String) :
    generate_filename id1 url = generate_filename id2 url ↔ id1 = id2 := by
  constructor
  · intro h
    have hd := congrArg String.data h
    simp only [generate_filename, String.data_append] at hd
    have h1 := List.append_cancel_right hd
    have h2 := List.append_cancel_right h1
    have h3 := List.append_cancel_right h2
    exact natRepr_injective id1 id2 (String.ext h3)
  · rintro rfl; rfl

/-! ### Helper lemmas about the summarizer retry loop -/

theorem summarize_loop_all_oai (call : Nat → CallResult) :
    ∀ (fuel a : Nat), (∀ i, i < fuel → call (a + i) = .oaiErr) →
      summarize_loop call a fuel = (none, (List.range' a fuel).map fun i => 2 ^ i) := by
  intro fuel
  induction fuel with
  | zero => intro a _; simp [summarize_loop]
  | succ f ih =>
    intro a h
    have h0 : call a = .oaiErr := by simpa using h 0 (by omega)
    simp only [summarize_loop, h0]
    rw [ih (a + 1) fun i hi => by
      have := h (i + 1) (by omega)
      rwa [show a + (i + 1) = a + 1 + i by omega] at this]
    simp [List.range'_succ]

theorem summarize_loop_other (call : Nat → CallResult) :
    ∀ (k fuel a : Nat), k < fuel →
      (∀ i, i < k → call (a + i) = .oaiErr) → call (a + k) = .otherErr →
      summarize_loop call a fuel = (none, (List.range' a k).map fun i => 2 ^ i) := by
  intro k
  induction k with
  | zero =>
    intro fuel a hk h0 hother
    cases fuel with
    | zero => omega
    | succ f =>
      have ha : call a = .otherErr := by simpa using hother
      simp [summarize_loop, ha]
  | succ j ih =>
    intro fuel a hk h hother
    cases fuel with
    | zero => omega
    | succ f =>
      have h0 : call a = .oaiErr := by simpa using h 0 (by omega)
      simp only [summarize_loop, h0]
      rw [ih f (a + 1) (by omega)
        (fun i hi => by
          have := h (i + 1) (by omega)
          rwa [show a + (i + 1) = a + 1 + i by omega] at this)
        (by
          have := hother
          rwa [show a + (j + 1) = a + 1 + j by omega] at this)]
      simp [List.range'_succ]

theorem process_messages_go_empty_entry (env : Env) (msgs : List (Nat × List String)) :
    ∀ (acc : Mapping) (files : Files) (p : Nat × List String), p ∈ msgs →
      (msgs.map Prod.fst).Nodup →
      (∀ u ∈ p.2, env.fetch u = none ∧
        check_file_exists (process_messages_go env acc files msgs).files
          (generate_filename p.1 u) = false) →
      dictGet (process_messages_go env acc files msgs).mapping p.1 = some [] := by
  induction msgs with
  | nil => intro acc files p hp _ _; simp at hp
  | cons hd rest ih =>
    obtain ⟨mid, urls⟩ := hd
    intro acc files p hp hnd hfail
    simp only [List.map_cons, List.nodup_cons] at hnd
    rcases List.mem_cons.mp hp with heq | hp2
    · subst heq
      have hfail2 : ∀ u ∈ urls, env.fetch u = none ∧
          check_file_exists files (generate_filename mid u) = false := by
        intro u hu
        refine ⟨(hfail u hu).1, ?_⟩
        cases hcheck : check_file_exists files (generate_filename mid u) with
        | false => rfl
        | true =>
          have hmono := process_messages_go_check_mono env ((mid, urls) :: rest)
            acc files (generate_filename mid u) hcheck
          rw [(hfail u hu).2] at hmono
          simp at hmono
      have hurls := process_urls_all_fail env mid urls files hfail2
      simp only [process_messages_go, hurls]
      rw [process_messages_go_dictGet env rest _ _ mid hnd.1]
      exact dictGet_dictSet_self acc mid []
    · simp only [process_messages_go]
      apply ih _ _ p hp2 hnd.2
      intro u hu
      refine ⟨(hfail u hu).1, ?_⟩
      have hfin := (hfail u hu).2
      simpa [process_messages_go] using hfin

/-! ## The claims -/

/-- C4: for every text whose token count under the encoding exceeds
max_tokens, truncate_text returns the decoding of exactly the first
max_tokens tokens, and that token list has length exactly max_tokens (never
max_tokens + 1); text within the budget is returned unchanged. -/
theorem claim_C4 (enc : Encoding) (text : String) (max_tokens : Nat) :
    ((enc.encode text).length > max_tokens →
      truncate_text enc text max_tokens = enc.decode ((enc.encode text).take max_tokens)
      ∧ ((enc.encode text).take max_tokens).length = max_tokens)
    ∧ ((enc.encode text).length ≤ max_tokens →
      truncate_text enc text max_tokens = text) := by
  constructor
  · intro h
    constructor
    · simp [truncate_text, h]
    · rw [List.length_take]
      omega
  · intro h
    simp [truncate_text, Nat.not_lt.mpr h]

/-- C4 witness at a concrete encoding and texts on both sides of the
budget. -/
theorem claim_C4_witness :
    truncate_text encW ("abc") 2 = encW.decode ((encW.encode ("abc")).take 2)
    ∧ ((encW.encode ("abc")).take 2).length = 2
    ∧ truncate_text encW ("ab") 2 = ("ab") := by
  refine ⟨?_, ?_, ?_⟩
  · exact ((claim_C4 encW ("abc") 2).1 (by decide)).1
  · exact ((claim_C4 encW ("abc") 2).1 (by decide)).2
  · exact (claim_C4 encW ("ab") 2).2 (by decide)

/-- C7: when every attempt of the generation call raises an OpenAIError,
summarize performs all `retries` attempts, sleeping `2 ^ attempt` seconds
after each failed attempt, and returns none rather than raising. -/
theorem claim_C7 (enc : Encoding) (call : Nat → String → CallResult)
    (model_name text : String) (retries : Nat)
    (h : ∀ i s, i < retries → call i s = .oaiErr) :
    summarize enc call model_name text retries
      = (none, (List.range retries).map fun i => 2 ^ i) := by
  show summarize_loop
    (fun attempt => call attempt
      (truncate_text enc text (max_total_tokens_for model_name - 1024 - 100)))
    0 retries = _
  rw [summarize_loop_all_oai _ retries 0
    (fun i hi => by rw [Nat.zero_add]; exact h i _ hi)]
  rw [List.range_eq_range']

/-- C7 witness: three attempts, sleeps 1, 2 and 4 seconds, result none. -/
theorem claim_C7_witness :
    summarize encW callAlwaysOai ("m") ("t") 3 = (none, [1, 2, 4]) := by
  have h := claim_C7 encW callAlwaysOai ("m") ("t") 3 (fun i s hi => rfl)
  simpa using h

/-- C9: an exception that is not an OpenAIError makes summarize return none
at once: the sleeps performed are exactly those of the earlier OpenAIError
attempts, with no sleep for the failing attempt and no further attempts. -/
theorem claim_C9 (enc : Encoding) (call : Nat → String → CallResult)
    (model_name text : String) (retries k : Nat)
    (hk : k < retries)
    (hother : ∀ s, call k s = .otherErr)
    (hoai : ∀ i s, i < k → call i s = .oaiErr) :
    summarize enc call model_name text retries
      = (none, (List.range k).map fun i => 2 ^ i) := by
  show summarize_loop
    (fun attempt => call attempt
      (truncate_text enc text (max_total_tokens_for model_name - 1024 - 100)))
    0 retries = _
  rw [summarize_loop_other _ k retries 0 hk
    (fun i hi => by rw [Nat.zero_add]; exact hoai i _ hi)
    (by rw [Nat.zero_add]; exact hother _)]
  rw [List.range_eq_range']

/-- C9 witness: OpenAIError on attempt 0, another exception on attempt 1,
within a budget of 3: result none after a single sleep of 1 second. -/
theorem claim_C9_witness :
    summarize encW callOaiThenOther ("m") ("t") 3 = (none, [1]) := by
  have h := claim_C9 encW callOaiThenOther ("m") ("t") 3 1 (by omega)
    (fun s => rfl)
    (fun i s hi => by
      have h0 : i = 0 := by omega
      subst h0; rfl)
  simpa using h

/-- C8: an edit whose content is unchanged raises the not-modified error,
which is caught and logged at warning level and the call returns normally;
the reconciliation pass visits every mapping entry whatever the edit
outcomes, and such an entry ends as a no-op. -/
theorem claim_C8 :
    (tch_edit_message (.error .notModified) = (.noop, [.warning]))
    ∧ (mu_edit_message (.error .notModified) = (.noop, [.warning, .info]))
    ∧ (∀ (getMsg : Nat → Option Message)
        (clientEdit : Nat → String → Except TgError Unit)
        (content_func : Message → List SummaryInfo → String) (mapping : Mapping),
        (update_messages getMsg clientEdit content_func mapping).map Prod.fst
          = mapping.map Prod.fst)
    ∧ (∀ (getMsg : Nat → Option Message)
        (clientEdit : Nat → String → Except TgError Unit)
        (content_func : Message → List SummaryInfo → String) (mapping : Mapping)
        (p : Nat × List SummaryInfo) (m : Message),
        p ∈ mapping → getMsg p.1 = some m →
        clientEdit p.1 (content_func m p.2) = .error .notModified →
        (p.1, some ((EditResult.noop), [LogLevel.warning, LogLevel.info]))
          ∈ update_messages getMsg clientEdit content_func mapping) := by
  refine ⟨rfl, rfl, ?_, ?_⟩
  · intro getMsg clientEdit content_func mapping
    simp only [update_messages, List.map_map]
    refine List.map_congr_left ?_
    intro p _
    simp only [Function.comp]
    cases hg : getMsg p.1 <;> simp [hg]
  · intro getMsg clientEdit content_func mapping p m hp hm hedit
    have hmem := List.mem_map_of_mem
      (fun p : Nat × List SummaryInfo =>
        match getMsg p.1 with
        | none => (p.1, none)
        | some m => (p.1, some (mu_edit_message (clientEdit p.1 (content_func m p.2)))))
      hp
    rw [update_messages]
    simpa [hm, hedit, mu_edit_message, tch_edit_message] using hmem

/-- C8 witness: a one-entry mapping whose edit reports not-modified is
recorded as a no-op and the pass completes. -/
theorem claim_C8_witness :
    (5, some ((EditResult.noop), [LogLevel.warning, LogLevel.info]))
      ∈ update_messages getMsgW clientEditNotMod contentW [(5, [])] := by
  exact claim_C8.2.2.2 getMsgW clientEditNotMod contentW [(5, [])] (5, [])
    { id := 5, text := ("old") } (by simp) rfl rfl

/-- C5 counterexample: on the very URL used by the spec, replacing every
single non-word character with an underscore disagrees with the code, which
collapses each run of consecutive non-word characters (here the three
characters of the scheme separator) into a single underscore. -/
theorem claim_C5_counterexample :
    generate_filename 42 ("https://a.test/p?q=1")
      ≠ generate_filename_specwords 42 ("https://a.test/p?q=1") := by
  decide

/-- C5 (amended): generate_filename is a deterministic function of
(message id, URL); two calls with different message ids and the same URL
always yield different keys; and the key is derived by replacing every
maximal run of non-word characters with a single underscore, so the
sanitized part consists of word characters only. -/
theorem claim_C5 (id1 id2 : Nat) (url : String) :
    (generate_filename id1 url = generate_filename id2 url ↔ id1 = id2)
    ∧ (∀ c ∈ (sanitize_url url).data, isWordChar c = true) := by
  refine ⟨generate_filename_inj_id id1 id2 url, ?_⟩
  intro c hc
  exact sanitizeAux_word url.data false c hc

/-- C5 witness: the spec instance, message ids 42 and 43 with the same
URL. -/
theorem claim_C5_witness :
    ((generate_filename 42 ("https://a.test/p?q=1")
        = generate_filename 43 ("https://a.test/p?q=1")) ↔ 42 = 43)
    ∧ isWordChar 'h' = true := by
  refine ⟨(claim_C5 42 43 ("https://a.test/p?q=1")).1, ?_⟩
  exact (claim_C5 42 43 ("https://a.test/p?q=1")).2 'h' (by decide)

/-- C1 counterexample: every stage succeeds but the filesystem write fails;
save_summary swallows the error and process_url still returns the
{url, filename} entry while no artifact at all is on disk, so the entry
does not correspond to a persisted artifact. -/
theorem claim_C1_counterexample :
    (process_url envNoWrite [] 1 ("http://x")).info
      = some ⟨("http://x"), generate_filename 1 ("http://x")⟩
    ∧ (process_url envNoWrite [] 1 ("http://x")).files = [] := by
  constructor <;> rfl

/-- C1 (amended): an entry returned by process_url is backed by a file on
disk whenever the write for its filename succeeds (or the file already
existed), and when all writes succeed every entry of the mapping returned by
process_messages refers to a file present when the pass ends; a failed write
however still yields the entry. -/
theorem claim_C1 :
    (∀ (env : Env) (files : Files) (mid : Nat) (url : String) (i : SummaryInfo),
      env.writeOk (generate_filename mid url) = true →
      (process_url env files mid url).info = some i →
      check_file_exists (process_url env files mid url).files i.filename = true)
    ∧ (∀ (env : Env) (files : Files) (msgs : List (Nat × List String)),
      (∀ f, env.writeOk f = true) →
      ∀ p ∈ (process_messages env files msgs).mapping, ∀ i ∈ p.2,
        check_file_exists (process_messages env files msgs).files i.filename
          = true) := by
  constructor
  · exact fun env files mid url i hw h => process_url_some_file env files mid url i hw h
  · intro env files msgs hw p hp i hi
    exact process_messages_go_entries env msgs hw [] files (by simp) p hp i hi

/-- C1 witness: with writes succeeding, the entry returned for a fresh URL
names a file that exists afterwards. -/
theorem claim_C1_witness :
    check_file_exists (process_url envAllOk [] 1 ("http://x")).files
      (generate_filename 1 ("http://x")) = true := by
  exact claim_C1.1 envAllOk [] 1 ("http://x")
    ⟨("http://x"), generate_filename 1 ("http://x")⟩ rfl rfl

/-- C10: a URL occurring twice in a message yields one entry per occurrence
with identical filenames; the second occurrence is satisfied by the artifact
written by the first, so no further fetch, extraction or summarize call
happens and the duplicate entries are both kept. -/
theorem claim_C10 (env : Env) (files : Files) (mid : Nat)
    (u html content summary : String)
    (hc : check_file_exists files (generate_filename mid u) = false)
    (hf : env.fetch u = some html)
    (hp : env.extract html = some content)
    (hs : env.summarize content = some summary)
    (hw : env.writeOk (generate_filename mid u) = true) :
    process_messages env files [(mid, [u, u])] =
      { mapping := [(mid, [⟨u, generate_filename mid u⟩,
          ⟨u, generate_filename mid u⟩])]
        files := setFile files (generate_filename mid u) summary
        events := [.fetch u, .extract u, .summarize u] } := by
  have h1 : process_url env files mid u =
      { info := some ⟨u, generate_filename mid u⟩
        files := setFile files (generate_filename mid u) summary
        events := [.fetch u, .extract u, .summarize u] } := by
    simp [process_url, hc, hf, hp, hs, save_summary, hw]
  have h2 : process_url env (setFile files (generate_filename mid u) summary) mid u =
      { info := some ⟨u, generate_filename mid u⟩
        files := setFile files (generate_filename mid u) summary
        events := [] } :=
    process_url_skip env _ mid u (check_setFile_self files _ _)
  simp [process_messages, process_messages_go, process_urls, h1, h2, dictSet]

/-- C10 witness: a fresh URL listed twice in one message. -/
theorem claim_C10_witness :
    process_messages envAllOk [] [(7, [("http://a"), ("http://a")])] =
      { mapping := [(7, [⟨("http://a"), generate_filename 7 ("http://a")⟩,
          ⟨("http://a"), generate_filename 7 ("http://a")⟩])]
        files := setFile [] (generate_filename 7 ("http://a")) ("summary")
        events := [.fetch ("http://a"), .extract ("http://a"),
          .summarize ("http://a")] } := by
  exact claim_C10 envAllOk [] 7 ("http://a") ("html") ("content") ("summary")
    rfl rfl rfl rfl rfl

/-- C6: the mapping returned by process_messages has a key for every listed
message, keys in message processing order, and a message all of whose URLs
fail still yields an empty list under its key, not an absent key. -/
theorem claim_C6 (env : Env) (files : Files) (msgs : List (Nat × List String))
    (hnd : (msgs.map Prod.fst).Nodup) :
    (process_messages env files msgs).mapping.map Prod.fst = msgs.map Prod.fst
    ∧ ∀ p ∈ msgs,
      (∀ u ∈ p.2, env.fetch u = none ∧
        check_file_exists (process_messages env files msgs).files
          (generate_filename p.1 u) = false) →
      dictGet (process_messages env files msgs).mapping p.1 = some [] := by
  constructor
  · simpa using process_messages_go_keys env msgs [] files (by simp) hnd
  · intro p hp hfail
    exact process_messages_go_empty_entry env msgs [] files p hp hnd hfail

/-- C6 witness: a single message whose only URL fails to fetch still gets
its key, bound to the empty list. -/
theorem claim_C6_witness :
    (process_messages envNoFetch [] [(5, [("http://u")])]).mapping.map Prod.fst
        = [5]
    ∧ dictGet (process_messages envNoFetch [] [(5, [("http://u")])]).mapping 5
        = some [] := by
  have h := claim_C6 envNoFetch [] [(5, [("http://u")])] (by simp)
  refine ⟨by simpa using h.1, ?_⟩
  exact h.2 (5, [("http://u")]) (by simp)
    (by intro u hu; simp at hu; subst hu; exact ⟨rfl, rfl⟩)

/-- C3: in a message with URL list [A, B, C] where processing B fails at
some stage (its result is None) while A and C are processed, the mapping
entry for that message is exactly the A entry followed by the C entry, and
every other message still receives its key: the failure aborts nothing. -/
theorem claim_C3 (env : Env) (files : Files)
    (pre post : List (Nat × List String)) (mid : Nat) (A B C : String)
    (iA iC : SummaryInfo) (fA : Files) (evA : List Event)
    (hnd : ((pre ++ (mid, [A, B, C]) :: post).map Prod.fst).Nodup)
    (hA : process_url env (process_messages env files pre).files mid A
      = { info := some iA, files := fA, events := evA })
    (hB : (process_url env fA mid B).info = none)
    (hC : (process_url env fA mid C).info = some iC) :
    dictGet (process_messages env files
        (pre ++ (mid, [A, B, C]) :: post)).mapping mid = some [iA, iC]
    ∧ (process_messages env files
        (pre ++ (mid, [A, B, C]) :: post)).mapping.map Prod.fst
      = (pre ++ (mid, [A, B, C]) :: post).map Prod.fst := by
  have hBfiles : (process_url env fA mid B).files = fA :=
    process_url_none_files env fA mid B hB
  have hmidpost : mid ∉ post.map Prod.fst := by
    rw [List.map_append] at hnd
    have h1 := (List.nodup_append.mp hnd).2.1
    simp only [List.map_cons] at h1
    exact (List.nodup_cons.mp h1).1
  have hinfos : (process_urls env (process_messages env files pre).files mid
      [A, B, C]).infos = [iA, iC] := by
    simp [process_urls, hA, hBfiles, hB, hC]
  constructor
  · simp only [process_messages] at hinfos ⊢
    rw [process_messages_go_append env pre ((mid, [A, B, C]) :: post) [] files]
    simp only [process_messages_go]
    rw [hinfos]
    rw [process_messages_go_dictGet env post _ _ mid hmidpost]
    exact dictGet_dictSet_self _ _ _
  · simpa [process_messages] using
      process_messages_go_keys env _ [] files (by simp) hnd

/-- C3 witness: one message with URLs a, b, c where fetching b fails. -/
theorem claim_C3_witness :
    dictGet (process_messages envBFails []
        [(1, [("http://a"), ("http://b"), ("http://c")])]).mapping 1
      = some [⟨("http://a"), generate_filename 1 ("http://a")⟩,
              ⟨("http://c"), generate_filename 1 ("http://c")⟩]
    ∧ (process_messages envBFails []
        [(1, [("http://a"), ("http://b"), ("http://c")])]).mapping.map Prod.fst
      = [(1, [("http://a"), ("http://b"), ("http://c")])].map Prod.fst := by
  exact claim_C3 envBFails [] [] [] 1 ("http://a") ("http://b") ("http://c")
    ⟨("http://a"), generate_filename 1 ("http://a")⟩
    ⟨("http://c"), generate_filename 1 ("http://c")⟩
    [(generate_filename 1 ("http://a"), ("summary"))]
    [Event.fetch ("http://a"), Event.extract ("http://a"),
      Event.summarize ("http://a")]
    (by simp) rfl rfl rfl

/-- C2: once every listed URL has its artifact on disk after a fully
successful run, running the save pass again returns the identical mapping
and the identical file set while performing no fetch, extraction or
summarize call at all; and a URL whose artifact file exists is always
answered from disk, with its entry returned and no external call. -/
theorem claim_C2 (env : Env) (files0 : Files) (msgs : List (Nat × List String))
    (hnd : (msgs.map Prod.fst).Nodup)
    (hsat : ∀ p ∈ msgs, ∀ u ∈ p.2,
      check_file_exists (process_messages env files0 msgs).files
        (generate_filename p.1 u) = true)
    (hfull : (process_messages env files0 msgs).mapping = fullMapping msgs) :
    (process_messages env (process_messages env files0 msgs).files msgs
      = { mapping := (process_messages env files0 msgs).mapping
          files := (process_messages env files0 msgs).files
          events := [] })
    ∧ ∀ (files : Files) (mid : Nat) (u : String),
        check_file_exists files (generate_filename mid u) = true →
        process_url env files mid u
          = { info := some ⟨u, generate_filename mid u⟩, files := files
              events := [] } := by
  constructor
  · rw [hfull]
    show process_messages_go env [] (process_messages env files0 msgs).files msgs = _
    rw [process_messages_go_all_exists env msgs []
      (process_messages env files0 msgs).files hsat (by simp) hnd]
    simp
  · exact fun files mid u h => process_url_skip env files mid u h

/-- C2 witness: a successful one-message run rerun on its own output. -/
theorem claim_C2_witness :
    (process_messages envAllOk
        (process_messages envAllOk [] [(1, [("http://a")])]).files
        [(1, [("http://a")])]
      = { mapping := (process_messages envAllOk [] [(1, [("http://a")])]).mapping
          files := (process_messages envAllOk [] [(1, [("http://a")])]).files
          events := [] })
    ∧ process_url envAllOk [(generate_filename 1 ("http://a"), ("summary"))] 1
        ("http://a")
      = { info := some ⟨("http://a"), generate_filename 1 ("http://a")⟩
          files := [(generate_filename 1 ("http://a"), ("summary"))]
          events := [] } := by
  have h := claim_C2 envAllOk [] [(1, [("http://a")])] (by simp)
    (by decide) (by decide)
  exact ⟨h.1, h.2 [(generate_filename 1 ("http://a"), ("summary"))] 1
    ("http://a") (by decide)⟩

end Autogram
